import Mathlib

/-
Verification of the core of an educational Bitcoin reimplementation
(block/transaction data model, serialization, Merkle root, compact-target
proof of work, block validation, P2PKH script verification, the wallet
transaction builder and the blockchain key-value store).

Bytes are modelled as natural numbers (every operation that produces a
byte reduces modulo 256); byte strings are `List Nat`.  Machine integers
(`u32`, `u64`) are natural numbers, with explicit `% 2^32` / `% 2^64`
where the source relies on fixed width.  Fallible operations return
`Option` or `Except`.
-/

namespace BtcEdu

instance {ε α : Type} [DecidableEq ε] [DecidableEq α] : DecidableEq (Except ε α)
  | .error a, .error b =>
    if h : a = b then .isTrue (by rw [h])
    else .isFalse (by intro hc; cases hc; exact h rfl)
  | .error _, .ok _ => .isFalse (by intro h; cases h)
  | .ok _, .error _ => .isFalse (by intro h; cases h)
  | .ok a, .ok b =>
    if h : a = b then .isTrue (by rw [h])
    else .isFalse (by intro hc; cases hc; exact h rfl)

/-! ## Little-endian integer codecs (`to_le_bytes` / `from_le_bytes`) -/

/-- Encode `n` as `k` bytes, least significant first (Rust `to_le_bytes`). -/
def toLE : Nat → Nat → List Nat
  | 0, _ => []
  | k + 1, n => (n % 256) :: toLE k (n / 256)

/-- Decode a little-endian byte list into a natural number
(Rust `from_le_bytes`). -/
def fromLE : List Nat → Nat
  | [] => 0
  | b :: bs => b + 256 * fromLE bs

theorem toLE_length (k n : Nat) : (toLE k n).length = k := by
  induction k generalizing n with
  | zero => rfl
  | succ k ih => simp [toLE, ih]

theorem fromLE_toLE (k n : Nat) (h : n < 256 ^ k) : fromLE (toLE k n) = n := by
  induction k generalizing n with
  | zero =>
    simp only [Nat.pow_zero, Nat.lt_one_iff] at h
    simp [toLE, fromLE, h]
  | succ k ih =>
    have hdiv : n / 256 < 256 ^ k := by
      rw [Nat.div_lt_iff_lt_mul (by norm_num)]
      calc n < 256 ^ (k + 1) := h
        _ = 256 ^ k * 256 := by rw [Nat.pow_succ]
    simp [toLE, fromLE, ih _ hdiv, Nat.mod_add_div']
    omega

/-! ## VarInt codec (`src/core/serialize.rs`) -/

/-- Rust `write_varint`: Bitcoin compact integer encoding of a `u64`. -/
def write_varint (value : Nat) : List Nat :=
  if value ≤ 0xfc then [value]
  else if value ≤ 0xffff then 0xfd :: toLE 2 value
  else if value ≤ 0xffffffff then 0xfe :: toLE 4 value
  else 0xff :: toLE 8 value

/-- Rust `read_varint`: decodes a compact integer from the head of the
stream, returning the value and the remaining bytes; `none` models the
short-read `io::Error`. -/
def read_varint : List Nat → Option (Nat × List Nat)
  | [] => none
  | b :: rest =>
    if b ≤ 0xfc then some (b, rest)
    else if b = 0xfd then
      match rest with
      | b0 :: b1 :: r => some (fromLE [b0, b1], r)
      | _ => none
    else if b = 0xfe then
      match rest with
      | b0 :: b1 :: b2 :: b3 :: r => some (fromLE [b0, b1, b2, b3], r)
      | _ => none
    else
      match rest with
      | b0 :: b1 :: b2 :: b3 :: b4 :: b5 :: b6 :: b7 :: r =>
        some (fromLE [b0, b1, b2, b3, b4, b5, b6, b7], r)
      | _ => none

theorem read_write_varint (n : Nat) (rest : List Nat) (h : n < 2 ^ 64) :
    read_varint (write_varint n ++ rest) = some (n, rest) := by
  unfold write_varint read_varint
  by_cases h1 : n ≤ 0xfc
  · simp [h1]
  · by_cases h2 : n ≤ 0xffff
    · simp only [if_neg h1, if_pos h2, toLE, List.cons_append, List.nil_append]
      have : ¬ (0xfd : Nat) ≤ 0xfc := by norm_num
      simp only [if_neg this, if_pos rfl]
      have : fromLE [n % 256, n / 256 % 256] = n := by
        have := fromLE_toLE 2 n (by omega)
        simpa [toLE, Nat.mod_mul_right_div_self] using this
      simp [this]
    · by_cases h3 : n ≤ 0xffffffff
      · simp only [if_neg h1, if_neg h2, if_pos h3, toLE, List.cons_append,
          List.nil_append]
        have hne : ¬ (0xfe : Nat) ≤ 0xfc := by norm_num
        have hne2 : ¬ (0xfe : Nat) = 0xfd := by norm_num
        simp only [if_neg hne, if_neg hne2, if_pos rfl]
        have : fromLE (toLE 4 n) = n := fromLE_toLE 4 n (by omega)
        simpa [toLE] using this
      · simp only [if_neg h1, if_neg h2, if_neg h3, toLE, List.cons_append,
          List.nil_append]
        have hne : ¬ (0xff : Nat) ≤ 0xfc := by norm_num
        have hne2 : ¬ (0xff : Nat) = 0xfd := by norm_num
        have hne3 : ¬ (0xff : Nat) = 0xfe := by norm_num
        simp only [if_neg hne, if_neg hne2, if_neg hne3]
        have : fromLE (toLE 8 n) = n := fromLE_toLE 8 n (by omega)
        simpa [toLE] using this

theorem write_varint_length (n : Nat) :
    (write_varint n).length =
      if n ≤ 0xfc then 1
      else if n ≤ 0xffff then 3
      else if n ≤ 0xffffffff then 5
      else 9 := by
  unfold write_varint
  by_cases h1 : n ≤ 0xfc <;> by_cases h2 : n ≤ 0xffff <;>
    by_cases h3 : n ≤ 0xffffffff <;>
    simp [h1, h2, h3, toLE_length]

/-! ## SHA-256 (the `sha2` crate used by `src/core/hash.rs`)

A byte-level executable model of FIPS 180-4 SHA-256, used by the
repository for block hashes, transaction ids and Merkle nodes. -/

/-- Right rotation of a 32-bit word. -/
def rotr32 (x n : Nat) : Nat := ((x >>> n) ||| (x <<< (32 - n))) % 2 ^ 32

/-- Bitwise complement of a 32-bit word. -/
def not32 (x : Nat) : Nat := x ^^^ 0xffffffff

def shaCh (x y z : Nat) : Nat := (x &&& y) ^^^ (not32 x &&& z)

def shaMaj (x y z : Nat) : Nat := (x &&& y) ^^^ (x &&& z) ^^^ (y &&& z)

def bigSigma0 (x : Nat) : Nat := rotr32 x 2 ^^^ rotr32 x 13 ^^^ rotr32 x 22

def bigSigma1 (x : Nat) : Nat := rotr32 x 6 ^^^ rotr32 x 11 ^^^ rotr32 x 25

def smallSigma0 (x : Nat) : Nat := rotr32 x 7 ^^^ rotr32 x 18 ^^^ (x >>> 3)

def smallSigma1 (x : Nat) : Nat := rotr32 x 17 ^^^ rotr32 x 19 ^^^ (x >>> 10)

/-- The 64 SHA-256 round constants (FIPS 180-4, written in decimal). -/
def shaK : List Nat :=
  [1116352408, 1899447441, 3049323471, 3921009573, 961987163,
   1508970993, 2453635748, 2870763221, 3624381080, 310598401,
   607225278, 1426881987, 1925078388, 2162078206, 2614888103,
   3248222580, 3835390401, 4022224774, 264347078, 604807628,
   770255983, 1249150122, 1555081692, 1996064986, 2554220882,
   2821834349, 2952996808, 3210313671, 3336571891, 3584528711,
   113926993, 338241895, 666307205, 773529912, 1294757372,
   1396182291, 1695183700, 1986661051, 2177026350, 2456956037,
   2730485921, 2820302411, 3259730800, 3345764771, 3516065817,
   3600352804, 4094571909, 275423344, 430227734, 506948616,
   659060556, 883997877, 958139571, 1322822218, 1537002063,
   1747873779, 1955562222, 2024104815, 2227730452, 2361852424,
   2428436474, 2756734187, 3204031479, 3329325298]

/-- The SHA-256 initial hash value (FIPS 180-4, written in decimal). -/
def shaH0 : List Nat :=
  [1779033703, 3144134277, 1013904242, 2773480762,
   1359893119, 2600822924, 528734635, 1541459225]

/-- Append the next word of the message schedule. -/
def schedStep (w : List Nat) : List Nat :=
  let n := w.length
  w ++ [(smallSigma1 (w.getD (n - 2) 0) + w.getD (n - 7) 0 +
         smallSigma0 (w.getD (n - 15) 0) + w.getD (n - 16) 0) % 2 ^ 32]

/-- Extend a 16-word block to the 64-word message schedule. -/
def schedN : Nat → List Nat → List Nat
  | 0, w => w
  | n + 1, w => schedN n (schedStep w)

/-- One SHA-256 compression round on the 8-word working state. -/
def shaRound (st : List Nat) (k w : Nat) : List Nat :=
  match st with
  | [a, b, c, d, e, f, g, h] =>
    let t1 := (h + bigSigma1 e + shaCh e f g + k + w) % 2 ^ 32
    let t2 := (bigSigma0 a + shaMaj a b c) % 2 ^ 32
    [(t1 + t2) % 2 ^ 32, a, b, c, (d + t1) % 2 ^ 32, e, f, g]
  | st => st

/-- Group a byte string into big-endian 32-bit words. -/
def bytesToWords : List Nat → List Nat
  | a :: b :: c :: d :: rest => (((a * 256 + b) * 256 + c) * 256 + d) :: bytesToWords rest
  | _ => []

/-- Big-endian byte encoding of `n` in `k` bytes. -/
def toBE (k n : Nat) : List Nat := (toLE k n).reverse

/-- Emit each 32-bit word as 4 big-endian bytes. -/
def wordsToBytes : List Nat → List Nat
  | [] => []
  | w :: rest => toBE 4 w ++ wordsToBytes rest

/-- Compress one 16-word block into the running 8-word hash state. -/
def compressBlock (h : List Nat) (block : List Nat) : List Nat :=
  let w := schedN 48 block
  let st := (shaK.zip w).foldl (fun st p => shaRound st p.1 p.2) h
  (h.zip st).map fun p => (p.1 + p.2) % 2 ^ 32

/-- FIPS 180-4 padding: a `0x80` byte, zeros to 56 mod 64, then the
bit length as a 64-bit big-endian integer. -/
def padMessage (msg : List Nat) : List Nat :=
  let l := msg.length
  let z := (119 - l % 64) % 64
  msg ++ 0x80 :: List.replicate z 0 ++ toBE 8 (8 * l)

/-- Fold the compression function over consecutive 64-byte blocks.  The
first argument is recursion fuel; `sha256Blocks` supplies the byte count,
which always suffices because every step consumes 64 bytes. -/
def sha256Chunks : Nat → List Nat → List Nat → List Nat
  | _, h, [] => h
  | 0, h, _ :: _ => h
  | fuel + 1, h, d :: rest =>
    sha256Chunks fuel (compressBlock h (bytesToWords ((d :: rest).take 64)))
      (rest.drop 63)

def sha256Blocks (h : List Nat) (padded : List Nat) : List Nat :=
  sha256Chunks padded.length h padded

/-- SHA-256 of a byte string, as 32 bytes. -/
def sha256 (msg : List Nat) : List Nat :=
  wordsToBytes (sha256Blocks shaH0 (padMessage msg))

/-- Rust `hash256` (`src/core/hash.rs`): double SHA-256. -/
def hash256 (data : List Nat) : List Nat := sha256 (sha256 data)

/-! ## Chain data model (`src/core/types.rs`, `transaction.rs`, `block.rs`) -/

/-- A 32-byte hash value in internal byte order. -/
abbrev Hash256 := List Nat

/-- Rust `Hash256::zero()`. -/
def zero32 : Hash256 := List.replicate 32 0

structure TxInput where
  prev_tx_hash : Hash256
  prev_index : Nat
  script_sig : List Nat
  sequence : Nat
deriving DecidableEq, Repr, Inhabited

structure TxOutput where
  value : Nat
  script_pubkey : List Nat
deriving DecidableEq, Repr

structure Transaction where
  version : Nat
  inputs : List TxInput
  outputs : List TxOutput
  lock_time : Nat
deriving DecidableEq, Repr, Inhabited

structure BlockHeader where
  version : Nat
  prev_block_hash : Hash256
  merkle_root : Hash256
  timestamp : Nat
  bits : Nat
  nonce : Nat
deriving DecidableEq, Repr

structure Block where
  header : BlockHeader
  transactions : List Transaction
deriving DecidableEq, Repr

/-- Rust `TxInput::is_coinbase`. -/
def TxInput.is_coinbase (i : TxInput) : Bool :=
  i.prev_tx_hash = zero32 && i.prev_index = 0xffffffff

/-- Rust `Transaction::is_coinbase`. -/
def Transaction.is_coinbase (tx : Transaction) : Bool :=
  tx.inputs.length = 1 && (tx.inputs.headD default).is_coinbase

/-! ### Serialization -/

/-- Rust `write_var_bytes`: VarInt length followed by the raw bytes. -/
def write_var_bytes (data : List Nat) : List Nat :=
  write_varint data.length ++ data

def TxInput.serialize (i : TxInput) : List Nat :=
  i.prev_tx_hash ++ toLE 4 i.prev_index ++ write_var_bytes i.script_sig ++
    toLE 4 i.sequence

def TxOutput.serialize (o : TxOutput) : List Nat :=
  toLE 8 o.value ++ write_var_bytes o.script_pubkey

def Transaction.serialize (tx : Transaction) : List Nat :=
  toLE 4 tx.version ++ write_varint tx.inputs.length ++
    (tx.inputs.map TxInput.serialize).flatten ++
    write_varint tx.outputs.length ++
    (tx.outputs.map TxOutput.serialize).flatten ++
    toLE 4 tx.lock_time

/-- Rust `Transaction::txid`: double SHA-256 of the serialization. -/
def Transaction.txid (tx : Transaction) : Hash256 := hash256 tx.serialize

def BlockHeader.serialize (h : BlockHeader) : List Nat :=
  toLE 4 h.version ++ h.prev_block_hash ++ h.merkle_root ++
    toLE 4 h.timestamp ++ toLE 4 h.bits ++ toLE 4 h.nonce

/-- Rust `BlockHeader::hash`: double SHA-256 of the 80-byte serialization. -/
def BlockHeader.hash (h : BlockHeader) : Hash256 := hash256 h.serialize

def Block.serialize (b : Block) : List Nat :=
  b.header.serialize ++ write_varint b.transactions.length ++
    (b.transactions.map Transaction.serialize).flatten

def Block.hash (b : Block) : Hash256 := b.header.hash

/-! ### Deserialization

Parsers take the byte stream and return the parsed value together with
the unconsumed remainder; `none` models a Rust `Err`. -/

/-- Rust `read_exact` into an `n`-byte buffer. -/
def readBytes (n : Nat) (data : List Nat) : Option (List Nat × List Nat) :=
  if n ≤ data.length then some (data.take n, data.drop n) else none

/-- Rust `read_var_bytes`: VarInt length then that many bytes. -/
def read_var_bytes (data : List Nat) : Option (List Nat × List Nat) := do
  let (len, rest) ← read_varint data
  readBytes len rest

def TxInput.parse (data : List Nat) : Option (TxInput × List Nat) := do
  let (h, r1) ← readBytes 32 data
  let (idx, r2) ← readBytes 4 r1
  let (ss, r3) ← read_var_bytes r2
  let (seq, r4) ← readBytes 4 r3
  some (⟨h, fromLE idx, ss, fromLE seq⟩, r4)

def TxOutput.parse (data : List Nat) : Option (TxOutput × List Nat) := do
  let (v, r1) ← readBytes 8 data
  let (spk, r2) ← read_var_bytes r1
  some (⟨fromLE v, spk⟩, r2)

/-- Parse `n` consecutive records with the given parser. -/
def parseCount {α : Type} (p : List Nat → Option (α × List Nat)) :
    Nat → List Nat → Option (List α × List Nat)
  | 0, data => some ([], data)
  | n + 1, data => do
    let (x, r) ← p data
    let (xs, r2) ← parseCount p n r
    some (x :: xs, r2)

/-- Rust `Transaction::from_reader`: parses one transaction from the head
of the stream, leaving trailing bytes unread. -/
def Transaction.from_reader (data : List Nat) : Option (Transaction × List Nat) := do
  let (v, r1) ← readBytes 4 data
  let (nIn, r2) ← read_varint r1
  let (ins, r3) ← parseCount TxInput.parse nIn r2
  let (nOut, r4) ← read_varint r3
  let (outs, r5) ← parseCount TxOutput.parse nOut r4
  let (lt, r6) ← readBytes 4 r5
  some (⟨fromLE v, ins, outs, fromLE lt⟩, r6)

/-- Rust `Transaction::deserialize`. -/
def Transaction.deserialize (data : List Nat) : Option Transaction :=
  (Transaction.from_reader data).map Prod.fst

/-- Rust `BlockHeader::deserialize`. -/
def BlockHeader.deserialize (data : List Nat) : Option BlockHeader :=
  if data.length < 80 then none
  else do
    let (v, r1) ← readBytes 4 data
    let (ph, r2) ← readBytes 32 r1
    let (mr, r3) ← readBytes 32 r2
    let (ts, r4) ← readBytes 4 r3
    let (bits, r5) ← readBytes 4 r4
    let (nonce, _) ← readBytes 4 r5
    some ⟨fromLE v, ph, mr, fromLE ts, fromLE bits, fromLE nonce⟩

/-- The transaction loop of Rust `Block::deserialize`, with the source's
cursor arithmetic reproduced exactly: each iteration reads the bytes from
the current position to the end (`read_to_end`, which leaves the cursor at
the end of the data), parses one transaction from them, and then sets the
cursor to its current position plus the re-serialized length of that
transaction. -/
def blockTxLoop (data : List Nat) : Nat → Nat → List Transaction →
    Option (List Transaction)
  | _, 0, acc => some acc.reverse
  | pos, n + 1, acc =>
    let remaining := data.drop pos
    match Transaction.from_reader remaining with
    | none => none
    | some (tx, _) =>
      let posAfterRead := max pos data.length
      blockTxLoop data (posAfterRead + tx.serialize.length) n (tx :: acc)

/-- Rust `Block::deserialize`. -/
def Block.deserialize (data : List Nat) : Option Block := do
  let (hdrBytes, rest) ← readBytes 80 data
  let hdr ← BlockHeader.deserialize hdrBytes
  let (txCount, rest2) ← read_varint rest
  let txs ← blockTxLoop data (data.length - rest2.length) txCount []
  some ⟨hdr, txs⟩

/-! ## Merkle root (`Block::calculate_merkle_root`) -/

/-- One level of the Merkle tree: `chunks(2)` with the last element
duplicated when the count is odd, each parent `hash256(L ++ R)`. -/
def merklePass : List Hash256 → List Hash256
  | a :: b :: rest => hash256 (a ++ b) :: merklePass rest
  | [a] => [hash256 (a ++ a)]
  | [] => []

theorem merklePass_length : (hs : List Hash256) →
    (merklePass hs).length = (hs.length + 1) / 2
  | [] => by simp [merklePass]
  | [_] => by simp [merklePass]
  | _ :: _ :: rest => by
    simp [merklePass, merklePass_length rest]
    omega

/-- The `while hashes.len() > 1` loop of `calculate_merkle_root`, with
recursion fuel: each pass at least halves the level size, so the initial
level size supplied by `merkleLoop` always suffices. -/
def merkleLoopF : Nat → List Hash256 → List Hash256
  | 0, hs => hs
  | fuel + 1, hs => if 1 < hs.length then merkleLoopF fuel (merklePass hs) else hs

def merkleLoop (hs : List Hash256) : List Hash256 := merkleLoopF hs.length hs

/-- Rust `Block::calculate_merkle_root`. -/
def Block.calculate_merkle_root (txs : List Transaction) : Hash256 :=
  if txs.isEmpty then zero32
  else (merkleLoop (txs.map Transaction.txid)).headD zero32

/-! ## Compact target and proof of work (`src/consensus/pow.rs`) -/

/-- Rust `Target::to_hash256`: decode the compact `bits` field into a
32-byte target, byte writes reproduced exactly (`target[offset]` receives
the least significant coefficient byte). -/
def Target.to_hash256 (bits : Nat) : Hash256 :=
  let exponent := bits >>> 24
  let coefficient := bits &&& 0x00ffffff
  if exponent ≤ 3 then
    let value := coefficient >>> (8 * (3 - exponent))
    (((List.replicate 32 0).set 29 (value &&& 0xff)).set 30
        ((value >>> 8) &&& 0xff)).set 31 ((value >>> 16) &&& 0xff)
  else
    let shift := exponent - 3
    if shift ≤ 29 then
      let offset := 32 - shift - 3
      (((List.replicate 32 0).set offset (coefficient &&& 0xff)).set
          (offset + 1) ((coefficient >>> 8) &&& 0xff)).set (offset + 2)
        ((coefficient >>> 16) &&& 0xff)
    else List.replicate 32 0

/-- The byte-by-byte big-endian comparison loop shared by
`Target::is_valid_hash` and `Miner::is_valid_hash_fast`: `true` iff the
first differing byte of `a` is smaller; equal inputs give `false`. -/
def ltBytes : List Nat → List Nat → Bool
  | a :: as, b :: bs => if a < b then true else if b < a then false else ltBytes as bs
  | _, _ => false

/-- Rust `Target::is_valid_hash`. -/
def Target.is_valid_hash (bits : Nat) (h : Hash256) : Bool :=
  ltBytes h (Target.to_hash256 bits)

/-- The big-endian 256-bit integer value of a byte string. -/
def beVal (bytes : List Nat) : Nat := bytes.foldl (fun acc b => acc * 256 + b) 0

/-- Modelled from the spec: the compact-target decoding of section 4.3,
with the 3-byte coefficient placed at its byte offset in big-endian
order (most significant coefficient byte first), so that the decoded
target's integer value is `coefficient * 2 ^ (8 * (exponent - 3))`. -/
def specCompactTarget (bits : Nat) : Hash256 :=
  let exponent := bits >>> 24
  let coefficient := bits &&& 0x00ffffff
  if exponent ≤ 3 then
    let value := coefficient >>> (8 * (3 - exponent))
    List.replicate 29 0 ++ toBE 3 value
  else
    let shift := exponent - 3
    if shift ≤ 29 then
      let offset := 32 - shift - 3
      List.replicate offset 0 ++ toBE 3 coefficient ++ List.replicate (29 - offset) 0
    else List.replicate 32 0

/-- Rust `Miner::verify`. -/
def Miner.verify (bits : Nat) (hdr : BlockHeader) : Bool :=
  Target.is_valid_hash bits hdr.hash

/-- Rust `MiningResult` (the wall-clock `duration` field is not modelled). -/
structure MiningResult where
  success : Bool
  nonce : Nat
  hash : Hash256
  attempts : Nat
deriving DecidableEq, Repr

/-- The nonce search loop of Rust `Miner::mine`, which mutates the header
it is given: the returned header is the caller's header after the loop.
`fuel` counts the remaining nonces of `0..=u32::MAX`. -/
def mineLoop (tgt : Hash256) (hdr : BlockHeader) :
    Nat → Nat → Nat → BlockHeader × MiningResult
  | _, 0, attempts => (hdr, ⟨false, 0, zero32, attempts⟩)
  | nonce, fuel + 1, attempts =>
    let hdr2 := { hdr with nonce := nonce }
    let h := hdr2.hash
    if ltBytes h tgt then (hdr2, ⟨true, nonce, h, attempts + 1⟩)
    else mineLoop tgt hdr2 (nonce + 1) fuel (attempts + 1)

/-- Rust `Miner::mine`: try every nonce in `0..=u32::MAX` against the
cached target decoded from `bits`. -/
def Miner.mine (bits : Nat) (hdr : BlockHeader) : BlockHeader × MiningResult :=
  mineLoop (Target.to_hash256 bits) hdr 0 (2 ^ 32) 0

/-! ## Block and transaction validation (`src/consensus/validation.rs`) -/

inductive ValidationError where
  | InvalidProofOfWork
  | InvalidMerkleRoot
  | NoTransactions
  | MissingCoinbase
  | MultipleCoinbase
  | EmptyTransaction
  | InvalidSignature
  | CoinbaseNotFirst
  | InvalidTimestamp
  | InvalidVersion
  | InvalidCoinbaseInputCount
  | OutputValueExceedsMax
deriving DecidableEq, Repr

/-- Rust `BlockValidator::validate_header`; `now` is the system clock
reading (seconds since the Unix epoch) obtained inside the function. -/
def validate_header (bits now : Nat) (h : BlockHeader) :
    Except ValidationError Unit :=
  if h.prev_block_hash ≠ zero32 && !Miner.verify bits h then
    .error .InvalidProofOfWork
  else if h.version < 1 then .error .InvalidVersion
  else if h.timestamp > now + 2 * 60 * 60 then .error .InvalidTimestamp
  else .ok ()

/-- Rust `BlockValidator::validate_transaction`. -/
def validate_transaction (tx : Transaction) : Except ValidationError Unit :=
  if tx.inputs.isEmpty || tx.outputs.isEmpty then .error .EmptyTransaction
  else if tx.is_coinbase then
    if tx.inputs.length ≠ 1 then .error .InvalidCoinbaseInputCount else .ok ()
  else .ok ()

/-- The `for tx in &block.transactions` loop at the end of
`validate_block`: first failing transaction wins. -/
def validateTxs : List Transaction → Except ValidationError Unit
  | [] => .ok ()
  | tx :: rest =>
    match validate_transaction tx with
    | .error e => .error e
    | .ok () => validateTxs rest

/-- Rust `BlockValidator::validate_block`. -/
def validate_block (bits now : Nat) (b : Block) : Except ValidationError Unit :=
  match validate_header bits now b.header with
  | .error e => .error e
  | .ok () =>
    if b.transactions.isEmpty then .error .NoTransactions
    else if !(b.transactions.headD default).is_coinbase then
      .error .MissingCoinbase
    else if b.transactions.tail.any Transaction.is_coinbase then
      .error .CoinbaseNotFirst
    else if 1 < (b.transactions.filter (·.is_coinbase)).length then
      .error .MultipleCoinbase
    else if Block.calculate_merkle_root b.transactions ≠ b.header.merkle_root then
      .error .InvalidMerkleRoot
    else validateTxs b.transactions

/-- Modelled from the spec: the block-body checks in the order the claim
lists them, returning the error of the first violated check (the header
is assumed already validated). -/
def specValidateBlockBody (b : Block) : Except ValidationError Unit :=
  if b.transactions.isEmpty then .error .NoTransactions
  else if !(b.transactions.headD default).is_coinbase then
    .error .MissingCoinbase
  else if b.transactions.tail.any Transaction.is_coinbase then
    .error .CoinbaseNotFirst
  else if Block.calculate_merkle_root b.transactions ≠ b.header.merkle_root then
    .error .InvalidMerkleRoot
  else validateTxs b.transactions

/-! ## RIPEMD-160 (the `ripemd` crate used by `hash160`) -/

/-- Left rotation of a 32-bit word. -/
def rotl32 (x n : Nat) : Nat := ((x <<< n) ||| (x >>> (32 - n))) % 2 ^ 32

/-- The RIPEMD-160 round function for step `j`. -/
def ripF (j x y z : Nat) : Nat :=
  if j < 16 then x ^^^ y ^^^ z
  else if j < 32 then (x &&& y) ||| (not32 x &&& z)
  else if j < 48 then (x ||| not32 y) ^^^ z
  else if j < 64 then (x &&& z) ||| (y &&& not32 z)
  else x ^^^ (y ||| not32 z)

/-- Left-line round constants. -/
def ripKL (j : Nat) : Nat :=
  if j < 16 then 0
  else if j < 32 then 0x5a827999
  else if j < 48 then 0x6ed9eba1
  else if j < 64 then 0x8f1bbcdc
  else 0xa953fd4e

/-- Right-line round constants. -/
def ripKR (j : Nat) : Nat :=
  if j < 16 then 0x50a28be6
  else if j < 32 then 0x5c4dd124
  else if j < 48 then 0x6d703ef3
  else if j < 64 then 0x7a6d76e9
  else 0

/-- Left-line message word order. -/
def ripRL : List Nat :=
  [0, 1, 2, 3, 4, 5, 6, 7, 8, 9, 10, 11, 12, 13, 14, 15,
   7, 4, 13, 1, 10, 6, 15, 3, 12, 0, 9, 5, 2, 14, 11, 8,
   3, 10, 14, 4, 9, 15, 8, 1, 2, 7, 0, 6, 13, 11, 5, 12,
   1, 9, 11, 10, 0, 8, 12, 4, 13, 3, 7, 15, 14, 5, 6, 2,
   4, 0, 5, 9, 7, 12, 2, 10, 14, 1, 3, 8, 11, 6, 15, 13]

/-- Right-line message word order. -/
def ripRR : List Nat :=
  [5, 14, 7, 0, 9, 2, 11, 4, 13, 6, 15, 8, 1, 10, 3, 12,
   6, 11, 3, 7, 0, 13, 5, 10, 14, 15, 8, 12, 4, 9, 1, 2,
   15, 5, 1, 3, 7, 14, 6, 9, 11, 8, 12, 2, 10, 0, 4, 13,
   8, 6, 4, 1, 3, 11, 15, 0, 5, 12, 2, 13, 9, 7, 10, 14,
   12, 15, 10, 4, 1, 5, 8, 7, 6, 2, 13, 14, 0, 3, 9, 11]

/-- Left-line rotation amounts. -/
def ripSL : List Nat :=
  [11, 14, 15, 12, 5, 8, 7, 9, 11, 13, 14, 15, 6, 7, 9, 8,
   7, 6, 8, 13, 11, 9, 7, 15, 7, 12, 15, 9, 11, 7, 13, 12,
   11, 13, 6, 7, 14, 9, 13, 15, 14, 8, 13, 6, 5, 12, 7, 5,
   11, 12, 14, 15, 14, 15, 9, 8, 9, 14, 5, 6, 8, 6, 5, 12,
   9, 15, 5, 11, 6, 8, 13, 12, 5, 12, 13, 14, 11, 8, 5, 6]

/-- Right-line rotation amounts. -/
def ripSR : List Nat :=
  [8, 9, 9, 11, 13, 15, 15, 5, 7, 7, 8, 11, 14, 14, 12, 6,
   9, 13, 15, 7, 12, 8, 9, 11, 7, 7, 12, 7, 6, 15, 13, 11,
   9, 7, 15, 11, 8, 6, 6, 14, 12, 13, 5, 14, 13, 13, 7, 5,
   15, 5, 8, 11, 14, 14, 6, 14, 6, 9, 12, 9, 12, 5, 15, 8,
   8, 5, 12, 9, 12, 5, 14, 6, 8, 13, 6, 5, 15, 13, 11, 11]

/-- Run one 80-step RIPEMD-160 line over message words `X`. -/
def ripLine (X : List Nat) (fsel : Nat → Nat → Nat → Nat → Nat)
    (ksel : Nat → Nat) (rTab sTab : List Nat) (st : List Nat) : List Nat :=
  (List.range 80).foldl
    (fun st j =>
      match st with
      | [a, b, c, d, e] =>
        let t := (rotl32 ((a + fsel j b c d + X.getD (rTab.getD j 0) 0 + ksel j) % 2 ^ 32)
                    (sTab.getD j 0) + e) % 2 ^ 32
        [e, t, b, rotl32 c 10, d]
      | st => st)
    st

/-- Group a byte string into little-endian 32-bit words. -/
def bytesToWordsLE : List Nat → List Nat
  | a :: b :: c :: d :: rest => (a + 256 * (b + 256 * (c + 256 * d))) :: bytesToWordsLE rest
  | _ => []

/-- The RIPEMD-160 initial chaining value. -/
def ripH0 : List Nat := [0x67452301, 0xefcdab89, 0x98badcfe, 0x10325476, 0xc3d2e1f0]

/-- Compress one 16-word block into the 5-word chaining state. -/
def ripCompress (h : List Nat) (X : List Nat) : List Nat :=
  match h, ripLine X ripF ripKL ripRL ripSL h,
      ripLine X (fun j => ripF (79 - j)) ripKR ripRR ripSR h with
  | [h0, h1, h2, h3, h4], [a, b, c, d, e], [a2, b2, c2, d2, e2] =>
    [(h1 + c + d2) % 2 ^ 32, (h2 + d + e2) % 2 ^ 32, (h3 + e + a2) % 2 ^ 32,
     (h4 + a + b2) % 2 ^ 32, (h0 + b + c2) % 2 ^ 32]
  | h, _, _ => h

/-- RIPEMD padding: like SHA-256 but with a little-endian bit length. -/
def ripPad (msg : List Nat) : List Nat :=
  let l := msg.length
  let z := (119 - l % 64) % 64
  msg ++ 0x80 :: List.replicate z 0 ++ toLE 8 (8 * l)

/-- Fold the RIPEMD compression over consecutive 64-byte blocks (fueled
like `sha256Chunks`). -/
def ripChunks : Nat → List Nat → List Nat → List Nat
  | _, h, [] => h
  | 0, h, _ :: _ => h
  | fuel + 1, h, d :: rest =>
    ripChunks fuel (ripCompress h (bytesToWordsLE ((d :: rest).take 64)))
      (rest.drop 63)

def ripBlocks (h : List Nat) (padded : List Nat) : List Nat :=
  ripChunks padded.length h padded

/-- RIPEMD-160 of a byte string, as 20 bytes (state words little-endian). -/
def ripemd160 (msg : List Nat) : List Nat :=
  ((ripBlocks ripH0 (ripPad msg)).map (toLE 4)).flatten

/-- Rust `hash160` (`src/core/hash.rs`): RIPEMD160 of SHA256. -/
def hash160 (data : List Nat) : List Nat := ripemd160 (sha256 data)

/-! ## P2PKH script subsystem (`src/core/script.rs`)

The `Result<_, String>` error strings of the source are modelled by the
constructors of `ScriptError`, one per distinct message. -/

inductive ScriptError where
  | emptyScriptSig
  | invalidSignatureLength
  | missingPubkey
  | invalidPubkeyLength
  | invalidScriptPubkeyLength
  | expectedOpDup
  | expectedOpHash160
  | expectedOpPushBytes20
  | expectedOpEqualVerify
  | expectedOpCheckSig
  | invalidPublicKey
  | invalidSignatureEncoding
  | invalidMessage
deriving DecidableEq, Repr

/-- Rust `Script::p2pkh_script_pubkey`. -/
def p2pkh_script_pubkey (pubkey_hash : List Nat) : List Nat :=
  0x76 :: 0xa9 :: 0x14 :: pubkey_hash ++ [0x88, 0xac]

/-- Rust `Script::p2pkh_script_sig`: two length-prefixed blobs. -/
def p2pkh_script_sig (signature pubkey : List Nat) : List Nat :=
  signature.length % 256 :: signature ++ pubkey.length % 256 :: pubkey

/-- Rust `Script::parse_script_sig`. -/
def parse_script_sig (s : List Nat) :
    Except ScriptError (List Nat × List Nat) :=
  match s with
  | [] => .error .emptyScriptSig
  | sigLen :: rest =>
    if rest.length < sigLen then .error .invalidSignatureLength
    else
      match rest.drop sigLen with
      | [] => .error .missingPubkey
      | pkLen :: rest3 =>
        if rest3.length < pkLen then .error .invalidPubkeyLength
        else .ok (rest.take sigLen, rest3.take pkLen)

/-- Rust `Script::parse_script_pubkey`: all five opcode bytes of the
25-byte template must match exactly. -/
def parse_script_pubkey (s : List Nat) : Except ScriptError (List Nat) :=
  if s.length ≠ 25 then .error .invalidScriptPubkeyLength
  else if s.getD 0 0 ≠ 0x76 then .error .expectedOpDup
  else if s.getD 1 0 ≠ 0xa9 then .error .expectedOpHash160
  else if s.getD 2 0 ≠ 0x14 then .error .expectedOpPushBytes20
  else if s.getD 23 0 ≠ 0x88 then .error .expectedOpEqualVerify
  else if s.getD 24 0 ≠ 0xac then .error .expectedOpCheckSig
  else .ok ((s.drop 3).take 20)

/-- Rust `Script::verify_p2pkh`.  The final ECDSA check
(`Script::verify_signature`, performed by the external secp256k1
library) is passed in as `ecdsaVerify signature pubkey tx_hash`; the key
point of the function is that it is only consulted after the
`hash160(pubkey)` comparison succeeds. -/
def verify_p2pkh
    (ecdsaVerify : List Nat → List Nat → List Nat → Except ScriptError Bool)
    (script_sig script_pubkey tx_hash : List Nat) : Except ScriptError Bool :=
  match parse_script_sig script_sig with
  | .error e => .error e
  | .ok (signature, pubkey) =>
    match parse_script_pubkey script_pubkey with
    | .error e => .error e
    | .ok pubkey_hash =>
      if hash160 pubkey ≠ pubkey_hash then .ok false
      else ecdsaVerify signature pubkey tx_hash

/-- Rust `BlockValidator::validate_transaction_signature`: the digest
handed to the P2PKH check is `tx.txid()` of the transaction as given —
i.e. with whatever script_sigs it carries at validation time. -/
def validate_transaction_signature
    (ecdsaVerify : List Nat → List Nat → List Nat → Except ScriptError Bool)
    (tx : Transaction) (input_index : Nat) (script_pubkey : List Nat) :
    Except ValidationError Unit :=
  if tx.inputs.length ≤ input_index then .error .EmptyTransaction
  else
    let input := tx.inputs.getD input_index default
    if input.is_coinbase then .ok ()
    else
      match verify_p2pkh ecdsaVerify input.script_sig script_pubkey tx.txid with
      | .error _ => .error .InvalidSignature
      | .ok true => .ok ()
      | .ok false => .error .InvalidSignature

/-! ## UTXO records and the transaction builder
(`src/storage/utxo_set.rs`, `src/wallet/tx_builder.rs`) -/

structure OutPoint where
  txid : Hash256
  vout : Nat
deriving DecidableEq, Repr

structure Utxo where
  output : TxOutput
  height : Nat
  is_coinbase : Bool
deriving DecidableEq, Repr

/-- The `Result<_, String>` failures of `TransactionBuilder::build`, one
constructor per distinct error message; `insufficientFunds` carries the
`have` and `need` amounts embedded in the message. -/
inductive BuildError where
  | senderNotFound
  | noUtxos
  | insufficientFunds (avail needed : Nat)
  | badRecipientAddress
deriving DecidableEq, Repr

/-- The accumulation loop of Rust `TransactionBuilder::select_utxos`,
carrying the `selected` vector and running `total`. -/
def select_utxos_go (target : Nat) :
    List (OutPoint × Utxo) → List (OutPoint × Utxo) → Nat →
      Except BuildError (List (OutPoint × Utxo) × Nat)
  | [], _, total => .error (.insufficientFunds total target)
  | p :: rest, selected, total =>
    let selected2 := selected ++ [p]
    let total2 := total + p.2.output.value
    if target ≤ total2 then .ok (selected2, total2)
    else select_utxos_go target rest selected2 total2

/-- Rust `TransactionBuilder::select_utxos`: accumulate UTXOs in
iteration order until the running total reaches `target`. -/
def select_utxos (utxos : List (OutPoint × Utxo)) (target : Nat) :
    Except BuildError (List (OutPoint × Utxo) × Nat) :=
  select_utxos_go target utxos [] 0

/-- Rust `TransactionBuilder::sign_transaction`: the digest is the TXID
of the transaction as given (all script_sigs still empty), computed once
before the loop; `ecdsaSign digest` stands for the external secp256k1
DER signature with the sender's secret key, and the resulting scriptSig
is installed into every input that corresponds to a selected UTXO. -/
def sign_transaction (ecdsaSign : List Nat → List Nat) (pubkey : List Nat)
    (tx : Transaction) (numUtxos : Nat) : Transaction :=
  let digest := tx.txid
  let script_sig := p2pkh_script_sig (ecdsaSign digest) pubkey
  { tx with
    inputs := tx.inputs.mapIdx fun i inp =>
      if i < numUtxos then { inp with script_sig := script_sig } else inp }

/-- Rust `TransactionBuilder::build`.  The keystore lookup, the sender's
scriptPubKey and the UTXO query are resolved by the caller-side wallet;
here `senderScript` is the sender keypair's P2PKH script, `recipientHash`
the 20-byte hash decoded from the recipient address, and `utxos` the
result of `get_utxos_for_script(senderScript)`. -/
def build (ecdsaSign : List Nat → List Nat) (pubkey : List Nat)
    (senderScript : List Nat) (recipientHash : List Nat)
    (utxos : List (OutPoint × Utxo)) (amount fee : Nat) :
    Except BuildError Transaction :=
  if utxos.isEmpty then .error .noUtxos
  else
    match select_utxos utxos (amount + fee) with
    | .error e => .error e
    | .ok (selected, total_input) =>
      let inputs : List TxInput :=
        selected.map fun p => ⟨p.1.txid, p.1.vout, [], 0xffffffff⟩
      let recipient_script := p2pkh_script_pubkey recipientHash
      let change := total_input - (amount + fee)
      let outputs : List TxOutput :=
        ⟨amount, recipient_script⟩ ::
          (if 0 < change then [⟨change, senderScript⟩] else [])
      .ok (sign_transaction ecdsaSign pubkey ⟨1, inputs, outputs, 0⟩
            selected.length)

/-! ## Blockchain database (`src/storage/blockchain_db.rs`)

The embedded `sled` store is modelled as an association list from byte
keys to byte values in which `insert` prepends and `get` finds the most
recent binding.  `get_block`, `get_tip` and `get_chain_height` return
`Except` values whose `error` side models the Rust `Err(String)`. -/

abbrev Store := List (List Nat × List Nat)

/-- `sled::Db::insert`. -/
def Store.insert (s : Store) (k v : List Nat) : Store := (k, v) :: s

/-- `sled::Db::get`. -/
def Store.get (s : Store) (k : List Nat) : Option (List Nat) :=
  (s.find? fun p => p.1 = k).map Prod.snd

/-- `BlockchainDB::block_key`: a `'b'` byte before the block hash. -/
def block_key (h : Hash256) : List Nat := 0x62 :: h

/-- `BlockchainDB::height_key`: an `'h'` byte before the height (LE). -/
def height_key (height : Nat) : List Nat := 0x68 :: toLE 4 height

/-- The singleton key `b"tip"`. -/
def tipKey : List Nat := [0x74, 0x69, 0x70]

/-- The singleton key `b"height"`. -/
def heightKey : List Nat := [0x68, 0x65, 0x69, 0x67, 0x68, 0x74]

/-- Rust `BlockchainDB::store_block`. -/
def store_block (s : Store) (b : Block) : Store :=
  s.insert (block_key b.hash) b.serialize

/-- Rust `BlockchainDB::get_block`; the outer `Except` models the
`Result`, whose error case includes a failing `Block::deserialize`. -/
def get_block (s : Store) (h : Hash256) : Except Unit (Option Block) :=
  match s.get (block_key h) with
  | none => .ok none
  | some data =>
    match Block.deserialize data with
    | none => .error ()
    | some b => .ok (some b)

/-- Rust `BlockchainDB::store_height`. -/
def store_height (s : Store) (height : Nat) (h : Hash256) : Store :=
  s.insert (height_key height) h

/-- Rust `BlockchainDB::get_hash_by_height`. -/
def get_hash_by_height (s : Store) (height : Nat) :
    Except Unit (Option Hash256) :=
  match s.get (height_key height) with
  | none => .ok none
  | some data => if data.length ≠ 32 then .error () else .ok (some data)

/-- Rust `BlockchainDB::get_block_by_height`. -/
def get_block_by_height (s : Store) (height : Nat) :
    Except Unit (Option Block) :=
  match get_hash_by_height s height with
  | .error e => .error e
  | .ok none => .ok none
  | .ok (some h) => get_block s h

/-- Rust `BlockchainDB::store_tip`. -/
def store_tip (s : Store) (h : Hash256) : Store := s.insert tipKey h

/-- Rust `BlockchainDB::get_tip`. -/
def get_tip (s : Store) : Except Unit (Option Hash256) :=
  match s.get tipKey with
  | none => .ok none
  | some data => if data.length ≠ 32 then .error () else .ok (some data)

/-- Rust `BlockchainDB::get_chain_height`: a fresh store reads as 0. -/
def get_chain_height (s : Store) : Except Unit Nat :=
  match s.get heightKey with
  | none => .ok 0
  | some data => if data.length ≠ 4 then .error () else .ok (fromLE data)

/-! ## Concrete sample data used by witnesses and counterexamples -/

/-- A small coinbase transaction (shape of the repository's tests). -/
def sampleCoinbase : Transaction :=
  ⟨1, [⟨zero32, 0xffffffff, [1, 2, 3], 0xffffffff⟩],
    [⟨5000000000, [4, 5, 6]⟩], 0⟩

/-- A small non-coinbase transaction. -/
def sampleSpend : Transaction :=
  ⟨1, [⟨List.replicate 32 1, 0, [7], 0xffffffff⟩], [⟨1000, []⟩], 0⟩

/-- A genesis-style header (zero previous hash bypasses PoW). -/
def sampleHeader : BlockHeader :=
  ⟨1, zero32, zero32, 1234567890, 0x207fffff, 0⟩

/-- A block with two transactions. -/
def sampleBlock2 : Block := ⟨sampleHeader, [sampleCoinbase, sampleSpend]⟩

/-- The store after `store_block`, `store_height 5` and `store_tip` for
`sampleBlock2`. -/
def sampleStore2 : Store :=
  store_tip (store_height (store_block [] sampleBlock2) 5 sampleBlock2.hash)
    sampleBlock2.hash

set_option maxRecDepth 1000000
set_option maxHeartbeats 4000000

/-! ## Claim theorems -/

/-- **C1** (code bug).  For `bits = 0x1d00ffff` (exponent `0x1d`,
coefficient `0x00ffff`, the value the repository's own tests use),
`Target::to_hash256` writes the coefficient bytes in little-endian order
into the big-endian target: the decoded target's integer value is
`0xffff00 * 2^208`, whereas the placement described by the specification
(and by the function's own doc comment formula
`target = coefficient * 2^(8*(exponent-3))`) gives `0x00ffff * 2^208`.
The `exponent ≤ 3` branch is mirrored the same way (`0x03123456` decodes
to `0x563412` instead of `0x123456`).  A hash equal to the code's own
target is rejected, as the claim states. -/
theorem claim_C1_compact_target_byte_order :
    Target.to_hash256 0x1d00ffff ≠ specCompactTarget 0x1d00ffff ∧
    beVal (Target.to_hash256 0x1d00ffff) = 0xffff00 * 2 ^ 208 ∧
    beVal (specCompactTarget 0x1d00ffff) = 0x00ffff * 2 ^ 208 ∧
    Target.to_hash256 0x03123456 ≠ specCompactTarget 0x03123456 ∧
    beVal (Target.to_hash256 0x03123456) = 0x563412 ∧
    beVal (specCompactTarget 0x03123456) = 0x123456 ∧
    Target.is_valid_hash 0x1d00ffff (Target.to_hash256 0x1d00ffff) = false := by
  decide

/-- **C5** (confirmed).  For every `n < 2^64`, decoding the VarInt
encoding of `n` returns exactly `n` with no bytes left over, and the
encoded length is the shortest form prescribed for its range. -/
theorem claim_C5_varint_codec (n : Nat) (h : n < 2 ^ 64) :
    read_varint (write_varint n) = some (n, []) ∧
    (write_varint n).length =
      (if n ≤ 0xfc then 1
       else if n ≤ 0xffff then 3
       else if n ≤ 0xffffffff then 5
       else 9) :=
  ⟨by simpa using read_write_varint n [] h, write_varint_length n⟩

theorem claim_C5_witness :
    (0xfd : Nat) < 2 ^ 64 ∧
    (read_varint (write_varint 0xfd) = some (0xfd, []) ∧
     (write_varint (0xfd : Nat)).length =
       (if (0xfd : Nat) ≤ 0xfc then 1
        else if (0xfd : Nat) ≤ 0xffff then 3
        else if (0xfd : Nat) ≤ 0xffffffff then 5
        else 9)) :=
  ⟨by norm_num, claim_C5_varint_codec 0xfd (by norm_num)⟩

/-- Every header field other than `nonce` survives `mineLoop` unchanged. -/
theorem mineLoop_frame (tgt : Hash256) (fuel : Nat) :
    ∀ (hdr : BlockHeader) (nonce attempts : Nat),
      (mineLoop tgt hdr nonce fuel attempts).1.version = hdr.version ∧
      (mineLoop tgt hdr nonce fuel attempts).1.prev_block_hash = hdr.prev_block_hash ∧
      (mineLoop tgt hdr nonce fuel attempts).1.merkle_root = hdr.merkle_root ∧
      (mineLoop tgt hdr nonce fuel attempts).1.timestamp = hdr.timestamp ∧
      (mineLoop tgt hdr nonce fuel attempts).1.bits = hdr.bits := by
  induction fuel with
  | zero => intro hdr nonce attempts; simp [mineLoop]
  | succ fuel ih =>
    intro hdr nonce attempts
    by_cases h : ltBytes (BlockHeader.hash { hdr with nonce := nonce }) tgt
    · simp [mineLoop, h]
    · simpa [mineLoop, h] using ih { hdr with nonce := nonce } (nonce + 1) (attempts + 1)

/-- **C9** (confirmed).  `Miner::mine` only ever writes the `nonce`
field of the header it is given: whether the search succeeds or the
nonce space is exhausted, `version`, `prev_block_hash`, `merkle_root`,
`timestamp` and `bits` are returned unchanged. -/
theorem claim_C9_mine_frame_effect (bits : Nat) (hdr : BlockHeader) :
    (Miner.mine bits hdr).1.version = hdr.version ∧
    (Miner.mine bits hdr).1.prev_block_hash = hdr.prev_block_hash ∧
    (Miner.mine bits hdr).1.merkle_root = hdr.merkle_root ∧
    (Miner.mine bits hdr).1.timestamp = hdr.timestamp ∧
    (Miner.mine bits hdr).1.bits = hdr.bits := by
  unfold Miner.mine
  exact mineLoop_frame (Target.to_hash256 bits) (2 ^ 32) hdr 0 0

/-- **C10** (confirmed).  On any store in which the `"height"` singleton
key was never written, `get_chain_height` returns `Ok(0)` (not an error
and not an absent value), and on the same store without a `"tip"` key,
`get_tip` returns `Ok(None)`. -/
theorem claim_C10_fresh_store_defaults (s : Store)
    (hHeight : s.get heightKey = none) (hTip : s.get tipKey = none) :
    get_chain_height s = .ok 0 ∧ get_tip s = .ok none := by
  refine ⟨?_, ?_⟩
  · unfold get_chain_height
    rw [hHeight]
  · unfold get_tip
    rw [hTip]

theorem claim_C10_witness :
    Store.get [] heightKey = none ∧ Store.get [] tipKey = none ∧
    (get_chain_height [] = .ok 0 ∧ get_tip [] = .ok none) :=
  ⟨rfl, rfl, claim_C10_fresh_store_defaults [] rfl rfl⟩

/-- **C8** (confirmed).  Whenever the scriptSig parses into its two
length-prefixed blobs, the scriptPubKey parses as a well-formed 25-byte
P2PKH template, and `hash160` of the embedded public key differs from
the embedded 20-byte hash, `verify_p2pkh` returns `Ok(false)` — a clean
`false`, not an error — no matter what the signature-verification
routine would do, because it is never consulted. -/
theorem claim_C8_key_mismatch_clean_false
    (ecdsaVerify : List Nat → List Nat → List Nat → Except ScriptError Bool)
    (script_sig script_pubkey tx_hash sig pubkey pkh : List Nat)
    (hSig : parse_script_sig script_sig = .ok (sig, pubkey))
    (hPk : parse_script_pubkey script_pubkey = .ok pkh)
    (hNe : hash160 pubkey ≠ pkh) :
    verify_p2pkh ecdsaVerify script_sig script_pubkey tx_hash = .ok false := by
  unfold verify_p2pkh
  rw [hSig, hPk]
  simp [hNe]

/-- The witness signs nothing: the ECDSA routine passed in always errors
(as it would on a signature produced by a different keypair and a
malformed DER blob), and verification still returns `Ok(false)` on the
key-mismatched scriptSig, for the message `0x42^32`. -/
theorem claim_C8_witness :
    parse_script_sig (p2pkh_script_sig [0x30, 1, 2] (List.replicate 33 2)) =
      .ok ([0x30, 1, 2], List.replicate 33 2) ∧
    parse_script_pubkey (p2pkh_script_pubkey (List.replicate 20 0)) =
      .ok (List.replicate 20 0) ∧
    hash160 (List.replicate 33 2) ≠ List.replicate 20 0 ∧
    verify_p2pkh (fun _ _ _ => .error .invalidSignatureEncoding)
      (p2pkh_script_sig [0x30, 1, 2] (List.replicate 33 2))
      (p2pkh_script_pubkey (List.replicate 20 0))
      (List.replicate 32 0x42) = .ok false :=
  ⟨by decide, by decide, by decide,
    claim_C8_key_mismatch_clean_false
      (fun _ _ _ => .error .invalidSignatureEncoding)
      (p2pkh_script_sig [0x30, 1, 2] (List.replicate 33 2))
      (p2pkh_script_pubkey (List.replicate 20 0))
      (List.replicate 32 0x42)
      [0x30, 1, 2] (List.replicate 33 2) (List.replicate 20 0)
      (by decide) (by decide) (by decide)⟩

/-- **C2** (code bug).  For a block with two transactions, after
`store_block`, `store_height` and `store_tip`, `get_block` (and hence
`get_block_by_height`) returns an error rather than `Some(block)`:
`Block::deserialize` sets the cursor to its post-`read_to_end` position
(the end of the data) plus the first transaction's length, so the second
transaction is parsed from an empty stream.  `get_tip` still returns the
stored hash. -/
theorem claim_C2_multi_tx_roundtrip_fails :
    Block.deserialize sampleBlock2.serialize = none ∧
    get_block sampleStore2 sampleBlock2.hash = .error () ∧
    get_block_by_height sampleStore2 5 = .error () ∧
    get_tip sampleStore2 = .ok (some sampleBlock2.hash) ∧
    sampleBlock2.transactions.length = 2 := by
  decide

/-- The transaction the builder constructs before signing: one selected
input with an empty script_sig, a payment output and a change output. -/
def sampleUnsignedTx : Transaction :=
  ⟨1, [⟨List.replicate 32 1, 0, [], 0xffffffff⟩],
    [⟨50000, p2pkh_script_pubkey (List.replicate 20 3)⟩,
     ⟨49000, p2pkh_script_pubkey (List.replicate 20 4)⟩], 0⟩

/-- A stand-in for the DER signature the secp256k1 library returns for
the digest `sampleUnsignedTx.txid`. -/
def sampleDerSig : List Nat := List.replicate 70 0x30

/-- A stand-in 33-byte compressed public key. -/
def samplePubkey : List Nat := 2 :: List.replicate 32 7

/-- `sampleUnsignedTx` after `sign_transaction`: the scriptSig built
from `sampleDerSig` and `samplePubkey` is installed into input 0. -/
def sampleSignedTx : Transaction :=
  sign_transaction (fun _ => sampleDerSig) samplePubkey sampleUnsignedTx 1

/-- **C3** (code bug).  The builder signs the TXID of the transaction
with empty script_sigs, but the validator recomputes `tx.txid()` of the
transaction as stored — whose inputs now carry the installed scriptSig —
so the two digests differ.  Consequently, even under an ECDSA oracle
that accepts exactly the signature the builder produced over the digest
the builder signed, `validate_transaction_signature` on input 0 against
the sender's scriptPubKey rejects the built transaction. -/
theorem claim_C3_signer_verifier_digest_mismatch :
    sampleSignedTx.txid ≠ sampleUnsignedTx.txid ∧
    validate_transaction_signature
      (fun sig _ d => .ok (decide (sig = sampleDerSig ∧ d = sampleUnsignedTx.txid)))
      sampleSignedTx 0 (p2pkh_script_pubkey (hash160 samplePubkey)) =
      .error .InvalidSignature := by
  decide

/-- Appending a copy of the last element of an odd-length level produces
the same next level as leaving the duplication to `merklePass`. -/
theorem merklePass_append_pair : ∀ (l : List Hash256) (x : Hash256),
    l.length % 2 = 0 → merklePass (l ++ [x]) = merklePass l ++ [hash256 (x ++ x)]
  | [], x, _ => by simp [merklePass]
  | [_], _, h => by simp at h
  | a :: b :: rest, x, h => by
    have ih := merklePass_append_pair rest x (by simp at h ⊢; omega)
    simp [merklePass, ih]

theorem merklePass_append_two : ∀ (l : List Hash256) (x : Hash256),
    l.length % 2 = 0 → merklePass (l ++ [x, x]) = merklePass l ++ [hash256 (x ++ x)]
  | [], x, _ => by simp [merklePass]
  | [_], _, h => by simp at h
  | a :: b :: rest, x, h => by
    have ih := merklePass_append_two rest x (by simp at h ⊢; omega)
    simp [merklePass, ih]

/-- `merkleLoopF` is insensitive to the exact fuel as long as the fuel
is at least the level size. -/
theorem merkleLoopF_congr : ∀ (f1 f2 : Nat) (hs : List Hash256),
    hs.length ≤ f1 → hs.length ≤ f2 → merkleLoopF f1 hs = merkleLoopF f2 hs := by
  intro f1
  induction f1 with
  | zero =>
    intro f2 hs h1 _
    have hnil : hs = [] := List.eq_nil_of_length_eq_zero (Nat.le_zero.mp h1)
    subst hnil
    cases f2 <;> simp [merkleLoopF]
  | succ f1 ih =>
    intro f2 hs h1 h2
    cases f2 with
    | zero =>
      have hnil : hs = [] := List.eq_nil_of_length_eq_zero (Nat.le_zero.mp h2)
      subst hnil
      simp [merkleLoopF]
    | succ f2 =>
      simp only [merkleLoopF]
      by_cases hl : 1 < hs.length
      · rw [if_pos hl, if_pos hl]
        have hp := merklePass_length hs
        exact ih f2 (merklePass hs) (by omega) (by omega)
      · rw [if_neg hl, if_neg hl]

/-- One unfolding of the `while hashes.len() > 1` loop. -/
theorem merkleLoop_pass (hs : List Hash256) (h : 2 ≤ hs.length) :
    merkleLoop hs = merkleLoop (merklePass hs) := by
  unfold merkleLoop
  obtain ⟨k, hk⟩ : ∃ k, hs.length = k + 1 := ⟨hs.length - 1, by omega⟩
  rw [hk]
  simp only [merkleLoopF]
  rw [if_pos (by omega)]
  have hp := merklePass_length hs
  exact merkleLoopF_congr k (merklePass hs).length (merklePass hs)
    (by omega) (Nat.le_refl _)

/-- Duplicating the last element of an odd list of at least three
transactions does not change the Merkle root. -/
theorem merkleRoot_dup (txs : List Transaction) (t : Transaction)
    (heven : txs.length % 2 = 0) (hne : txs ≠ []) :
    Block.calculate_merkle_root (txs ++ [t]) =
      Block.calculate_merkle_root (txs ++ [t, t]) := by
  have hpos : 0 < txs.length := List.length_pos.mpr hne
  have hlen2 : 2 ≤ txs.length := by omega
  unfold Block.calculate_merkle_root
  rw [if_neg (by simp), if_neg (by simp)]
  rw [List.map_append, List.map_append]
  have hmaplen : (txs.map Transaction.txid).length % 2 = 0 := by
    simpa using heven
  rw [merkleLoop_pass (txs.map Transaction.txid ++ [t].map Transaction.txid)
      (by simp; omega),
    merkleLoop_pass (txs.map Transaction.txid ++ [t, t].map Transaction.txid)
      (by simp)]
  show (merkleLoop (merklePass (txs.map Transaction.txid ++ [t.txid]))).headD zero32 =
    (merkleLoop (merklePass (txs.map Transaction.txid ++ [t.txid, t.txid]))).headD zero32
  rw [merklePass_append_pair _ _ hmaplen, merklePass_append_two _ _ hmaplen]

/-- **C4** (corrected).  The Merkle rules as amended: a singleton list's
root is its TXID; for odd lists of at least three transactions (the
claim's `2k+1` restricted to `k ≥ 1`), duplicating the last transaction
leaves the root unchanged; the empty list yields the zero hash; and the
root is computed by repeatedly pairing adjacent hashes — duplicating the
last hash of an odd level — with parent `hash256(L ++ R)` until one hash
remains.  (At `k = 0` the duplication law is false; see the
counterexample.) -/
theorem claim_C4_merkle_rules :
    (∀ tx : Transaction, Block.calculate_merkle_root [tx] = tx.txid) ∧
    (∀ (txs : List Transaction) (t : Transaction),
      txs.length % 2 = 0 → txs ≠ [] →
      Block.calculate_merkle_root (txs ++ [t]) =
        Block.calculate_merkle_root (txs ++ [t, t])) ∧
    Block.calculate_merkle_root [] = zero32 ∧
    (∀ hs : List Hash256, 2 ≤ hs.length →
      merkleLoop hs = merkleLoop (merklePass hs)) ∧
    (∀ (a b : Hash256) (rest : List Hash256),
      merklePass (a :: b :: rest) = hash256 (a ++ b) :: merklePass rest) ∧
    (∀ a : Hash256, merklePass [a] = [hash256 (a ++ a)]) := by
  refine ⟨?_, merkleRoot_dup, by rfl, merkleLoop_pass, ?_, ?_⟩
  · intro tx
    simp [Block.calculate_merkle_root, merkleLoop, merkleLoopF]
  · intro a b rest
    simp [merklePass]
  · intro a
    simp [merklePass]

/-- At `k = 0` the claim's duplication law fails: the root of a
singleton list is the bare TXID while the root of the duplicated pair is
a fresh `hash256`. -/
theorem claim_C4_counterexample :
    Block.calculate_merkle_root [sampleCoinbase] ≠
      Block.calculate_merkle_root [sampleCoinbase, sampleCoinbase] := by
  decide

theorem claim_C4_witness :
    ([sampleCoinbase, sampleSpend] : List Transaction).length % 2 = 0 ∧
    ([sampleCoinbase, sampleSpend] : List Transaction) ≠ [] ∧
    Block.calculate_merkle_root ([sampleCoinbase, sampleSpend] ++ [sampleSpend]) =
      Block.calculate_merkle_root ([sampleCoinbase, sampleSpend] ++ [sampleSpend, sampleSpend]) :=
  ⟨by decide, by decide,
    claim_C4_merkle_rules.2.1 [sampleCoinbase, sampleSpend] sampleSpend
      (by decide) (by decide)⟩

/-- The transaction loop at the end of `validate_block` succeeds iff
every transaction passes structural validation. -/
theorem validateTxs_ok_iff : ∀ l : List Transaction,
    validateTxs l = .ok () ↔ ∀ tx ∈ l, validate_transaction tx = .ok ()
  | [] => by simp [validateTxs]
  | tx :: rest => by
    simp only [validateTxs]
    cases h : validate_transaction tx with
    | error e => simp [h]
    | ok u => cases u; simp [h, validateTxs_ok_iff rest]

/-- With no coinbase among the later transactions the coinbase filter of
the tail is empty, so the `MultipleCoinbase` recount of `validate_block`
can never exceed one. -/
theorem coinbase_filter_nil (ts : List Transaction)
    (h3 : ts.any Transaction.is_coinbase = false) :
    ts.filter (·.is_coinbase) = [] := by
  rw [List.filter_eq_nil_iff]
  intro x hx
  have := List.any_eq_false.mp h3 x hx
  simpa using this

/-- **C6** (confirmed).  For every block whose header passes
`validate_header`, `validate_block` performs exactly the body checks the
claim lists, in that order, returning the error of the first violated
check (the separate `MultipleCoinbase` recount can never fire once the
no-later-coinbase check has passed); in particular it returns `Ok` iff
the transaction list is non-empty, transaction 0 is coinbase, no later
transaction is coinbase, the recomputed Merkle root matches the header,
and every transaction passes structural validation. -/
theorem claim_C6_validate_block_order (bits now : Nat) (b : Block)
    (hh : validate_header bits now b.header = .ok ()) :
    validate_block bits now b = specValidateBlockBody b ∧
    (validate_block bits now b = .ok () ↔
      (b.transactions ≠ [] ∧
       (b.transactions.headD default).is_coinbase = true ∧
       (∀ tx ∈ b.transactions.tail, tx.is_coinbase = false) ∧
       Block.calculate_merkle_root b.transactions = b.header.merkle_root ∧
       ∀ tx ∈ b.transactions, validate_transaction tx = .ok ())) := by
  have heq : validate_block bits now b = specValidateBlockBody b := by
    unfold validate_block specValidateBlockBody
    rw [hh]
    cases hl : b.transactions with
    | nil => rfl
    | cons t ts =>
      by_cases h2 : t.is_coinbase
      · by_cases h3 : ts.any Transaction.is_coinbase
        · simp [h2, h3]
        · have h3f : ts.any Transaction.is_coinbase = false := by
            simpa using h3
          simp [h2, h3f, List.filter_cons, coinbase_filter_nil ts h3f]
      · have h2f : t.is_coinbase = false := by simpa using h2
        simp [h2f]
  refine ⟨heq, ?_⟩
  rw [heq]
  unfold specValidateBlockBody
  cases hl : b.transactions with
  | nil => simp
  | cons t ts =>
    by_cases h2 : t.is_coinbase
    · by_cases h3 : ts.any Transaction.is_coinbase
      · have hnall : ¬ (∀ tx ∈ ts, tx.is_coinbase = false) := by
          obtain ⟨x, hx, hcb⟩ := List.any_eq_true.mp h3
          intro hall
          simp [hall x hx] at hcb
        simp [h2, h3, hnall]
      · have h3f : ts.any Transaction.is_coinbase = false := by simpa using h3
        have hall : ∀ tx ∈ ts, tx.is_coinbase = false := by
          intro x hx
          have := List.any_eq_false.mp h3f x hx
          simpa using this
        by_cases h4 : Block.calculate_merkle_root (t :: ts) = b.header.merkle_root
        · simp [h2, h3f, h4, validateTxs_ok_iff, hall]
          intro _ _
          exact hall
        · simp [h2, h3f, h4]
    · have h2f : t.is_coinbase = false := by simpa using h2
      simp [h2f]

/-- A well-formed single-coinbase genesis-style block. -/
def sampleBlock1 : Block :=
  ⟨{ sampleHeader with merkle_root := Block.calculate_merkle_root [sampleCoinbase] },
    [sampleCoinbase]⟩

theorem claim_C6_witness :
    validate_header 0x207fffff 1234567890 sampleBlock1.header = .ok () ∧
    (validate_block 0x207fffff 1234567890 sampleBlock1 =
        specValidateBlockBody sampleBlock1 ∧
      (validate_block 0x207fffff 1234567890 sampleBlock1 = .ok () ↔
        (sampleBlock1.transactions ≠ [] ∧
         (sampleBlock1.transactions.headD default).is_coinbase = true ∧
         (∀ tx ∈ sampleBlock1.transactions.tail, tx.is_coinbase = false) ∧
         Block.calculate_merkle_root sampleBlock1.transactions =
           sampleBlock1.header.merkle_root ∧
         ∀ tx ∈ sampleBlock1.transactions, validate_transaction tx = .ok ()))) := by
  have hh : validate_header 0x207fffff 1234567890 sampleBlock1.header = .ok () := by
    decide
  exact ⟨hh, claim_C6_validate_block_order 0x207fffff 1234567890 sampleBlock1 hh⟩

/-- Installing script_sigs never touches the outputs. -/
theorem sign_transaction_outputs (f : List Nat → List Nat) (pk : List Nat)
    (tx : Transaction) (n : Nat) : (sign_transaction f pk tx n).outputs = tx.outputs :=
  rfl

/-- When the selection loop succeeds, the reported total is the exact sum
of the selected UTXO values and reaches the target. -/
theorem select_go_ok (target : Nat) :
    ∀ (rest selected : List (OutPoint × Utxo)) (total : Nat)
      (sel : List (OutPoint × Utxo)) (tot : Nat),
      total = (selected.map fun p => p.2.output.value).sum →
      select_utxos_go target rest selected total = .ok (sel, tot) →
      tot = (sel.map fun p => p.2.output.value).sum ∧ target ≤ tot
  | [], _, _, _, _ => by
    intro _ h
    simp [select_utxos_go] at h
  | p :: rest, selected, total, sel, tot => by
    intro hinv h
    simp only [select_utxos_go] at h
    by_cases hc : target ≤ total + p.2.output.value
    · rw [if_pos hc] at h
      obtain ⟨h1, h2⟩ : selected ++ [p] = sel ∧ total + p.2.output.value = tot := by
        simpa using h
      subst h1
      subst h2
      exact ⟨by simp [hinv], hc⟩
    · rw [if_neg hc] at h
      exact select_go_ok target rest (selected ++ [p]) (total + p.2.output.value)
        sel tot (by simp [hinv]) h

/-- When the accumulated values can never reach the target, the loop
reports insufficient funds carrying the full available total and the
target. -/
theorem select_go_insufficient (target : Nat) :
    ∀ (rest selected : List (OutPoint × Utxo)) (total : Nat),
      total + (rest.map fun p => p.2.output.value).sum < target →
      select_utxos_go target rest selected total =
        .error (.insufficientFunds
          (total + (rest.map fun p => p.2.output.value).sum) target)
  | [], _, total => by
    intro h
    simp [select_utxos_go]
  | p :: rest, selected, total => by
    intro h
    simp only [select_utxos_go]
    rw [if_neg (by simp at h ⊢; omega)]
    have ih := select_go_insufficient target rest (selected ++ [p])
      (total + p.2.output.value) (by simp at h ⊢; omega)
    rw [ih]
    simp [Nat.add_assoc]

/-- **C7** (corrected).  For every successful build, the sum of the
output values plus the fee equals the exact sum of the selected input
UTXO values; the change is non-negative by construction and, when it is
zero, the change output is omitted (the outputs are exactly the one
payment output).  When the sender owns **at least one** UTXO and the
accumulated values never reach `amount + fee`, the build fails with the
insufficient-funds error carrying the total available and the amount
needed; with **no** UTXOs at all it instead fails earlier with the
distinct no-UTXOs error (this is the one divergence from the claim as
stated — see the counterexample). -/
theorem claim_C7_build_value_conservation
    (ecdsaSign : List Nat → List Nat) (pubkey senderScript recipientHash : List Nat)
    (utxos : List (OutPoint × Utxo)) (amount fee : Nat) :
    (∀ tx, build ecdsaSign pubkey senderScript recipientHash utxos amount fee = .ok tx →
      ∃ sel tot, select_utxos utxos (amount + fee) = .ok (sel, tot) ∧
        tot = (sel.map fun p => p.2.output.value).sum ∧
        (tx.outputs.map TxOutput.value).sum + fee = tot ∧
        (tot = amount + fee →
          tx.outputs = [⟨amount, p2pkh_script_pubkey recipientHash⟩]) ∧
        (amount + fee < tot →
          tx.outputs = [⟨amount, p2pkh_script_pubkey recipientHash⟩,
            ⟨tot - (amount + fee), senderScript⟩])) ∧
    (utxos = [] →
      build ecdsaSign pubkey senderScript recipientHash utxos amount fee =
        .error .noUtxos) ∧
    (utxos ≠ [] → (utxos.map fun p => p.2.output.value).sum < amount + fee →
      build ecdsaSign pubkey senderScript recipientHash utxos amount fee =
        .error (.insufficientFunds ((utxos.map fun p => p.2.output.value).sum)
          (amount + fee))) := by
  refine ⟨?_, ?_, ?_⟩
  · intro tx htx
    unfold build at htx
    by_cases hemp : utxos.isEmpty
    · rw [if_pos hemp] at htx
      simp at htx
    · rw [if_neg hemp] at htx
      cases hsel : select_utxos utxos (amount + fee) with
      | error e => rw [hsel] at htx; simp at htx
      | ok st =>
        obtain ⟨sel, tot⟩ := st
        rw [hsel] at htx
        have htx2 :
            sign_transaction ecdsaSign pubkey
              ⟨1, sel.map fun p => ⟨p.1.txid, p.1.vout, [], 0xffffffff⟩,
                ⟨amount, p2pkh_script_pubkey recipientHash⟩ ::
                  (if 0 < tot - (amount + fee)
                   then [⟨tot - (amount + fee), senderScript⟩] else []), 0⟩
              sel.length = tx := by
          simpa using htx
        obtain ⟨hsum, hge⟩ :=
          select_go_ok (amount + fee) utxos [] 0 sel tot (by simp) hsel
        refine ⟨sel, tot, rfl, hsum, ?_, ?_, ?_⟩
        · rw [← htx2, sign_transaction_outputs]
          by_cases hch : 0 < tot - (amount + fee)
          · rw [if_pos hch]
            simp
            omega
          · rw [if_neg hch]
            simp
            omega
        · intro hz
          rw [← htx2, sign_transaction_outputs]
          rw [if_neg (by omega)]
        · intro hlt
          rw [← htx2, sign_transaction_outputs]
          rw [if_pos (by omega)]
  · intro hnil
    subst hnil
    unfold build
    rfl
  · intro hne hlt
    unfold build
    rw [if_neg (by simpa using hne)]
    unfold select_utxos
    rw [select_go_insufficient (amount + fee) utxos [] 0 (by simpa using hlt)]
    simp

/-- A concrete single-UTXO wallet state for the build witness. -/
def sampleOutpoint : OutPoint := ⟨List.replicate 32 1, 0⟩

def sampleUtxo : Utxo := ⟨⟨100000, [9, 9]⟩, 1, false⟩

/-- The transaction the builder returns for the sample wallet, sending
50000 with fee 1000 out of a single 100000 UTXO. -/
def sampleBuiltTx : Transaction :=
  match build (fun _ => [1]) samplePubkey [9, 9] (List.replicate 20 3)
      [(sampleOutpoint, sampleUtxo)] 50000 1000 with
  | .ok tx => tx
  | .error _ => default

theorem claim_C7_witness :
    ∃ sel tot,
      select_utxos [(sampleOutpoint, sampleUtxo)] (50000 + 1000) = .ok (sel, tot) ∧
      tot = (sel.map fun p => p.2.output.value).sum ∧
      (sampleBuiltTx.outputs.map TxOutput.value).sum + 1000 = tot ∧
      (tot = 50000 + 1000 →
        sampleBuiltTx.outputs = [⟨50000, p2pkh_script_pubkey (List.replicate 20 3)⟩]) ∧
      (50000 + 1000 < tot →
        sampleBuiltTx.outputs = [⟨50000, p2pkh_script_pubkey (List.replicate 20 3)⟩,
          ⟨tot - (50000 + 1000), [9, 9]⟩]) :=
  (claim_C7_build_value_conservation (fun _ => [1]) samplePubkey [9, 9]
      (List.replicate 20 3) [(sampleOutpoint, sampleUtxo)] 50000 1000).1
    sampleBuiltTx (by decide)

/-- With an empty UTXO set the accumulated total (zero) never reaches
`amount + fee = 5`, yet the build fails with the distinct no-UTXOs error
rather than `InsufficientFunds(0, 5)` as the claim requires. -/
theorem claim_C7_counterexample :
    build (fun _ => []) [] [] [] [] 5 0 = .error .noUtxos ∧
    BuildError.noUtxos ≠ BuildError.insufficientFunds 0 5 ∧
    ((([] : List (OutPoint × Utxo)).map fun p => p.2.output.value).sum < 5 + 0) := by
  decide

end BtcEdu
